import Mathlib

/-!
Verification of the map-archiving pipeline implemented in
Locally_Archive_AGP_Map.py.  Each Python function the claims touch is given a
shallow embedding below: pure string manipulation becomes Lean functions on
String and List Char, engine calls (arcpy) become oracle parameters, raised
exceptions become Option or an explicit error component, and the file system
becomes an explicit record of existence flags.
-/

namespace ArchiveMap

/-! ## Identifier normalizer (process_existing_gdb, lines 265-282)

The source walks a directory listing and, for every name matching the regex
L[0-9], strips the two-character tag and then runs

  while not filename[0].isalpha():
      if len(filename) == 1:
          filename = "No_Alpha_Characters_Layer_\x7bi\x7d"
      else:
          filename = filename[1:]

Note that the replacement string in the source is a plain literal, not an
f-string, so the enumerate index i is never interpolated.  Indexing
filename[0] on an empty string raises IndexError, modelled as none. -/

/-- The replacement name the source assigns when stripping reduces a name to a
single non-alphabetic character.  It is the literal text of line 277 of the
source, including the two brace characters: the f prefix is missing there, so
the index variable is not substituted. -/
def noAlphaName : String := "No_Alpha_Characters_Layer_\x7bi\x7d"

theorem noAlphaName_data :
    noAlphaName.data = 'N' :: "o_Alpha_Characters_Layer_\x7bi\x7d".data := rfl

/-- Python re.match with pattern L[0-9]: true iff the name starts with the
character L followed by a decimal digit. -/
def reMatchL (s : String) : Bool :=
  match s.data with
  | c1 :: c2 :: _ => c1 == 'L' && c2.isDigit
  | _ => false

/-- The while loop of the normalizer, with explicit fuel.  Each iteration
reads the first character (IndexError on the empty name, modelled as none);
if it is alphabetic the loop stops; if the name has a single character the
source substitutes noAlphaName and re-enters the loop; otherwise the leading
character is dropped. -/
def stripLoopFuel : Nat → List Char → Option (List Char)
  | 0, _ => none
  | _ + 1, [] => none
  | f + 1, c :: cs =>
    if c.isAlpha then some (c :: cs)
    else if cs.isEmpty then stripLoopFuel f noAlphaName.data
    else stripLoopFuel f cs

/-- The while loop run with enough fuel for every reachable execution: the
loop drops at most length - 1 characters, substitutes at most once, and the
substituted name begins with an alphabetic character. -/
def stripLoop (s : List Char) : Option (List Char) :=
  stripLoopFuel (s.length + 2) s

/-- The per-name repair of process_existing_gdb: a name matching the tag
pattern has its first two characters removed and the strip loop applied; any
other name is left unchanged.  none models an uncaught exception. -/
def repairName (s : String) : Option String :=
  if reMatchL s then (stripLoop (s.data.drop 2)).map String.mk
  else some s

/-- The rename pass over one directory listing: each name is repaired in
order; an uncaught exception aborts the whole pass. -/
def normalizePass : List String → Option (List String)
  | [] => some []
  | f :: fs =>
    match repairName f with
    | none => none
    | some g =>
      match normalizePass fs with
      | none => none
      | some gs => some (g :: gs)

theorem reMatchL_shape (s : String) (h : reMatchL s = true) :
    ∃ c rest, s.data = 'L' :: c :: rest ∧ c.isDigit = true := by
  unfold reMatchL at h
  cases hd : s.data with
  | nil => rw [hd] at h; simp at h
  | cons c1 t =>
    cases ht : t with
    | nil => rw [hd, ht] at h; simp at h
    | cons c2 rest =>
      rw [hd, ht] at h
      simp only [Bool.and_eq_true, beq_iff_eq] at h
      exact ⟨c2, rest, by rw [h.1], h.2⟩

theorem stripLoopFuel_noAlpha : ∀ f : Nat, 1 ≤ f →
    stripLoopFuel f noAlphaName.data = some noAlphaName.data
  | f + 1, _ => by
    rw [noAlphaName_data]
    simp only [stripLoopFuel]
    rw [if_pos (by decide)]

theorem stripLoopFuel_isSome : ∀ (f : Nat) (t : List Char), t ≠ [] →
    t.length + 1 ≤ f → (stripLoopFuel f t).isSome = true
  | 0, t, _, hf => by omega
  | _ + 1, [], ht, _ => absurd rfl ht
  | f + 1, c :: cs, _, hf => by
    simp only [stripLoopFuel]
    by_cases hc : c.isAlpha = true
    · rw [if_pos hc]; rfl
    · rw [if_neg hc]
      by_cases hcs : cs.isEmpty = true
      · rw [if_pos hcs]
        have h1 : 1 ≤ f := by
          simp only [List.length_cons] at hf; omega
        rw [stripLoopFuel_noAlpha f h1]; rfl
      · rw [if_neg hcs]
        apply stripLoopFuel_isSome f cs
        · intro h; rw [h] at hcs; exact hcs rfl
        · simp only [List.length_cons] at hf; omega

theorem stripLoop_isSome (t : List Char) (ht : t ≠ []) :
    (stripLoop t).isSome = true :=
  stripLoopFuel_isSome (t.length + 2) t ht (by omega)

theorem repairName_none_of_len2 (s : String) (h : reMatchL s = true)
    (hl : s.length = 2) : repairName s = none := by
  obtain ⟨c, rest, hd, _⟩ := reMatchL_shape s h
  have h2 : s.data.length = 2 := hl
  rw [hd] at h2
  simp only [List.length_cons] at h2
  have hrest : rest = [] := List.length_eq_zero.mp (by omega)
  simp only [repairName, h, if_true]
  rw [hd, hrest]
  rfl

theorem repairName_isSome_of_len3 (s : String) (h : reMatchL s = true)
    (hl : 3 ≤ s.length) : (repairName s).isSome = true := by
  obtain ⟨c, rest, hd, _⟩ := reMatchL_shape s h
  have h3 : 3 ≤ s.data.length := hl
  rw [hd] at h3
  simp only [List.length_cons] at h3
  have hrest : rest ≠ [] := by
    intro hr; rw [hr] at h3; simp at h3
  simp only [repairName, h, if_true]
  rw [hd]
  have hdrop : ('L' :: c :: rest).drop 2 = rest := rfl
  rw [hdrop]
  rcases Option.isSome_iff_exists.mp (stripLoop_isSome rest hrest) with ⟨x, hx⟩
  rw [hx]
  rfl

theorem normalizePass_none_of_mem :
    ∀ (fs : List String) (s : String), s ∈ fs → repairName s = none →
      normalizePass fs = none
  | f :: fs, s, hs, hnone => by
    simp only [normalizePass]
    rcases List.mem_cons.mp hs with h | h
    · rw [← h, hnone]
    · cases hf : repairName f with
      | none => rfl
      | some g => rw [normalizePass_none_of_mem fs s h hnone]

/-- C10: a directory-listing name of length exactly two matching the tag
pattern (for example L0) drives the strip loop to index the first character
of the empty string, which raises an uncaught IndexError and aborts the
normalization pass; for matching names of length at least three the repair
always produces a name. -/
theorem c10_two_char_tag_raises :
    (∀ s : String, reMatchL s = true → s.length = 2 → repairName s = none) ∧
    (∀ s : String, reMatchL s = true → 3 ≤ s.length →
      (repairName s).isSome = true) ∧
    (∀ (fs : List String) (s : String), s ∈ fs → reMatchL s = true →
      s.length = 2 → normalizePass fs = none) :=
  ⟨repairName_none_of_len2, repairName_isSome_of_len3,
    fun fs s hs h hl =>
      normalizePass_none_of_mem fs s hs (repairName_none_of_len2 s h hl)⟩

theorem c10_two_char_tag_raises_witness :
    (reMatchL "L0" = true ∧ "L0".length = 2 ∧ repairName "L0" = none) ∧
    (reMatchL "L0a" = true ∧ 3 ≤ "L0a".length ∧
      (repairName "L0a").isSome = true) ∧
    normalizePass ["Roads", "L0"] = none :=
  ⟨⟨by decide, by decide,
      c10_two_char_tag_raises.1 "L0" (by decide) (by decide)⟩,
    ⟨by decide, by decide,
      c10_two_char_tag_raises.2.1 "L0a" (by decide) (by decide)⟩,
    c10_two_char_tag_raises.2.2 ["Roads", "L0"] "L0" (by decide) (by decide)
      (by decide)⟩

/-- C1 counterexample: the repair is not idempotent on every name.  For the
input L0L0a one application strips the tag and stops at the alphabetic
character L, giving L0a, which itself still matches the tag pattern, so a
second application strips again and gives a. -/
theorem c1_counterexample :
    (repairName "L0L0a").bind repairName ≠ repairName "L0L0a" := by decide

/-- C1 (amended): the repair is the identity on every name that no longer
matches the tag pattern; hence whenever one application yields a result that
no longer matches the pattern, a second application returns that result
unchanged.  Unconditional idempotence fails, because a repaired name can
itself match the tag pattern again and be stripped further. -/
theorem c1_repair_identity_on_nonmatching :
    (∀ s : String, reMatchL s = false → repairName s = some s) ∧
    (∀ s t : String, repairName s = some t → reMatchL t = false →
      (repairName s).bind repairName = repairName s) := by
  constructor
  · intro s h
    simp [repairName, h]
  · intro s t hst ht
    rw [hst]
    show repairName t = some t
    simp [repairName, ht]

theorem c1_repair_identity_on_nonmatching_witness :
    reMatchL "Roads" = false ∧ repairName "Roads" = some "Roads" :=
  ⟨by decide, c1_repair_identity_on_nonmatching.1 "Roads" (by decide)⟩

/-- C2 counterexample: the repair of L3Ro@#ads does not produce ads.  After
the two-character tag is stripped the remainder is Ro@#ads, whose first
character R is alphabetic, so the strip loop performs no iteration at all. -/
theorem c2_counterexample : repairName "L3Ro@#ads" ≠ some "ads" := by decide

/-- C2 (amended): for the input L3Ro@#ads the repair strips the two-character
tag and returns Ro@#ads unchanged, because the loop only drops leading
characters while the first character is non-alphabetic and R is alphabetic;
the embedded special characters are never reached. -/
theorem c2_repair_of_tagged_name : repairName "L3Ro@#ads" = some "Ro@#ads" := by
  decide

/-- C3: evaluating the repair at the degenerate input L93 (tag L9, remainder
the single non-alphabetic character 3) yields the literal replacement string
containing the two brace characters and the letter i, not a name carrying the
numeric directory position: the source is missing the f prefix on the
replacement string literal, so the index is never interpolated. -/
theorem c3_degenerate_name_literal :
    repairName "L93" = some noAlphaName ∧
    noAlphaName ≠ "No_Alpha_Characters_Layer_0" := ⟨by decide, by decide⟩

/-! ## Z-layer reconciler (extract_existing_mpkx, lines 358-384)

The source iterates over the supplied Z-enabled layers; for each it validates
the output name, copies the features into the store, reprojects through the
in-memory scratch workspace, and overwrites the store entity, all inside a
per-layer try block whose except clause prints a warning and continues.  The
engine calls are oracles: validate models arcpy.ValidateTableName, copyOk and
projOk say whether CopyFeatures and Project raise for a given layer.  An
entity is recorded as (name, reprojected flag): a layer whose copy succeeds
but whose reprojection raises leaves the unreprojected copy in the store. -/

/-- Result of the Z-layer loop: the layers attempted in order, the store
entities produced, and the warnings printed. -/
structure ZOutcome where
  attempted : List String
  entities : List (String × Bool)
  warnings : List String
deriving DecidableEq

def reconcileZLayers (validate : String → String) (copyOk projOk : String → Bool) :
    List String → ZOutcome
  | [] => ⟨[], [], []⟩
  | l :: ls =>
    let rest := reconcileZLayers validate copyOk projOk ls
    if copyOk l then
      if projOk l then
        ⟨l :: rest.attempted, (validate l, true) :: rest.entities, rest.warnings⟩
      else
        ⟨l :: rest.attempted, (validate l, false) :: rest.entities,
          ("Warning: Failed to reproject " ++ l) :: rest.warnings⟩
    else
      ⟨l :: rest.attempted, rest.entities,
        ("Warning: Failed to reproject " ++ l) :: rest.warnings⟩

theorem reconcileZ_attempted (v : String → String) (cOk pOk : String → Bool) :
    ∀ ls : List String, (reconcileZLayers v cOk pOk ls).attempted = ls
  | [] => rfl
  | a :: ls => by
    simp only [reconcileZLayers]
    by_cases hc : cOk a = true
    · by_cases hp : pOk a = true
      · simp [hc, hp, reconcileZ_attempted v cOk pOk ls]
      · simp [hc, hp, reconcileZ_attempted v cOk pOk ls]
    · simp [hc, reconcileZ_attempted v cOk pOk ls]

theorem reconcileZ_entity_mem (v : String → String) (cOk pOk : String → Bool) :
    ∀ (ls : List String) (l : String), l ∈ ls → cOk l = true → pOk l = true →
      (v l, true) ∈ (reconcileZLayers v cOk pOk ls).entities
  | a :: ls, l, hl, h1, h2 => by
    simp only [reconcileZLayers]
    rcases List.mem_cons.mp hl with h | hmem
    · subst h
      simp [h1, h2]
    · have ihm := reconcileZ_entity_mem v cOk pOk ls l hmem h1 h2
      by_cases hc : cOk a = true
      · by_cases hp : pOk a = true
        · simp only [hc, hp, if_true]
          exact List.mem_cons_of_mem _ ihm
        · simp only [hc, hp, if_true, if_false]
          exact List.mem_cons_of_mem _ ihm
      · simp only [hc, if_false]
        exact ihm

theorem reconcileZ_warning_mem (v : String → String) (cOk pOk : String → Bool) :
    ∀ (ls : List String) (l : String), l ∈ ls →
      (cOk l = false ∨ pOk l = false) →
      ("Warning: Failed to reproject " ++ l) ∈
        (reconcileZLayers v cOk pOk ls).warnings
  | a :: ls, l, hl, hfail => by
    simp only [reconcileZLayers]
    rcases List.mem_cons.mp hl with h | hmem
    · subst h
      rcases hfail with h | h
      · simp [h]
      · by_cases hc : cOk l = true
        · simp [hc, h]
        · simp [hc]
    · have ihm := reconcileZ_warning_mem v cOk pOk ls l hmem hfail
      by_cases hc : cOk a = true
      · by_cases hp : pOk a = true
        · simp only [hc, hp, if_true]
          exact ihm
        · simp only [hc, hp, if_true, if_false]
          exact List.mem_cons_of_mem _ ihm
      · simp only [hc, if_false]
        exact List.mem_cons_of_mem _ ihm

/-- C4: the Z-layer loop attempts every layer of the input list in order, a
layer whose copy and reprojection both succeed contributes its validated,
reprojected entity to the store, and a layer for which either engine call
raises is reported by a warning while the remaining layers are still
attempted. -/
theorem c4_z_reconciler_failure_isolation (validate : String → String)
    (copyOk projOk : String → Bool) (ls : List String) :
    (reconcileZLayers validate copyOk projOk ls).attempted = ls ∧
    (∀ l ∈ ls, copyOk l = true → projOk l = true →
      (validate l, true) ∈ (reconcileZLayers validate copyOk projOk ls).entities) ∧
    (∀ l ∈ ls, copyOk l = false ∨ projOk l = false →
      ("Warning: Failed to reproject " ++ l) ∈
        (reconcileZLayers validate copyOk projOk ls).warnings) :=
  ⟨reconcileZ_attempted validate copyOk projOk ls,
    fun l hl h1 h2 => reconcileZ_entity_mem validate copyOk projOk ls l hl h1 h2,
    fun l hl hfail => reconcileZ_warning_mem validate copyOk projOk ls l hl hfail⟩

theorem c4_z_reconciler_failure_isolation_witness :
    ("a", true) ∈ (reconcileZLayers id (fun s => !(s == "b"))
      (fun s => !(s == "c")) ["a", "b", "c"]).entities ∧
    ("Warning: Failed to reproject " ++ "b") ∈ (reconcileZLayers id
      (fun s => !(s == "b")) (fun s => !(s == "c")) ["a", "b", "c"]).warnings ∧
    (reconcileZLayers id (fun s => !(s == "b"))
      (fun s => !(s == "c")) ["a", "b", "c"]).attempted = ["a", "b", "c"] :=
  ⟨(c4_z_reconciler_failure_isolation id (fun s => !(s == "b"))
      (fun s => !(s == "c")) ["a", "b", "c"]).2.1 "a" (by decide) (by decide)
      (by decide),
    (c4_z_reconciler_failure_isolation id (fun s => !(s == "b"))
      (fun s => !(s == "c")) ["a", "b", "c"]).2.2 "b" (by decide)
      (Or.inl (by decide)),
    (c4_z_reconciler_failure_isolation id (fun s => !(s == "b"))
      (fun s => !(s == "c")) ["a", "b", "c"]).1⟩

/-! ## Archive extractor (extract_existing_mpkx, lines 316-403)

The function first checks that the bundle file exists and locates 7-Zip;
both checks sit before the try block, so their errors propagate with no
cleanup.  Inside the try block it copies the bundle to temp.7z, extracts it,
relocates the found geodatabase, runs the per-layer Z loop (whose failures
are all caught locally and never escape), and on success removes the
temporary files when cleanup is requested.  The except clause prints the
error, removes the whole destination directory when cleanup is requested and
the directory exists, and re-raises.  The file system is a record of
existence flags; the fallible steps are oracle booleans. -/

/-- Existence flags for the paths extract_existing_mpkx touches: the source
bundle file, the destination directory, the temp.7z copy inside the
destination, and the relocated geodatabase inside the destination. -/
structure ArchiveFS where
  mpkx : Bool
  outputFolder : Bool
  temp7z : Bool
  gdb : Bool
deriving DecidableEq

inductive ExtractErr where
  | mpkxNotFound
  | toolNotFound
  | copyFailed
  | extractionFailed
  | storeNotFound
deriving DecidableEq

/-- Which environment-dependent steps succeed in a given run. -/
structure ExtractOracle where
  sevenZipFound : Bool
  copyOk : Bool
  extractOk : Bool
  gdbFound : Bool
deriving DecidableEq

/-- The body of the try block: copy the bundle to temp.7z, extract, locate
and relocate the geodatabase, then remove the temporary files on success when
cleanup is requested.  Returns the file system together with the error of the
first failing step, if any. -/
def extractTryBody (o : ExtractOracle) (cleanup : Bool) (fs : ArchiveFS) :
    ArchiveFS × Option ExtractErr :=
  if !o.copyOk then (fs, some .copyFailed)
  else
    let fs1 : ArchiveFS := { fs with temp7z := true }
    if !o.extractOk then (fs1, some .extractionFailed)
    else if !o.gdbFound then (fs1, some .storeNotFound)
    else
      let fs2 : ArchiveFS := { fs1 with gdb := true }
      if cleanup then ({ fs2 with mpkx := false, temp7z := false }, none)
      else (fs2, none)

/-- extract_existing_mpkx: the two precondition checks sit before the try
block; a failure inside the try block reaches the except clause, which
removes the destination directory (and with it the temp copy and the store)
when cleanup is requested and the directory exists, then re-raises. -/
def extractExistingMpkx (o : ExtractOracle) (cleanup : Bool) (fs : ArchiveFS) :
    ArchiveFS × Option ExtractErr :=
  if !fs.mpkx then (fs, some .mpkxNotFound)
  else if !o.sevenZipFound then (fs, some .toolNotFound)
  else
    match extractTryBody o cleanup fs with
    | (fs1, none) => (fs1, none)
    | (fs1, some e) =>
      if cleanup && fs1.outputFolder then
        ({ fs1 with outputFolder := false, temp7z := false, gdb := false },
          some e)
      else (fs1, some e)

/-- C5 counterexample: with the destination directory present and cleanup
enabled, a run in which 7-Zip is not installed raises the tool-not-found
error from before the try block, so no cleanup happens and the destination
directory still exists afterward, contrary to the claim. -/
theorem c5_counterexample :
    (extractExistingMpkx ⟨false, true, true, true⟩ true
      ⟨true, true, false, false⟩).2 = some ExtractErr.toolNotFound ∧
    ¬ (extractExistingMpkx ⟨false, true, true, true⟩ true
      ⟨true, true, false, false⟩).1.outputFolder = false := by decide

theorem extractTryBody_outputFolder (o : ExtractOracle) (cleanup : Bool)
    (fs : ArchiveFS) :
    (extractTryBody o cleanup fs).1.outputFolder = fs.outputFolder := by
  simp only [extractTryBody]
  by_cases h1 : o.copyOk = true
  · by_cases h2 : o.extractOk = true
    · by_cases h3 : o.gdbFound = true
      · by_cases h4 : cleanup = true <;> simp [h1, h2, h3, h4]
      · simp [h1, h2, h3]
    · simp [h1, h2]
  · simp [h1]

/-- C5 (amended): once the two precondition checks performed before the try
block pass (the bundle file exists and 7-Zip is found), any error raised by
the guarded extraction steps, with cleanup enabled and the destination
directory present, removes the destination directory together with its
contents and is re-raised to the caller; errors of the two precondition
checks themselves propagate without removing the destination. -/
theorem c5_cleanup_on_guarded_failure (o : ExtractOracle) (fs : ArchiveFS)
    (e : ExtractErr) (hm : fs.mpkx = true) (hz : o.sevenZipFound = true)
    (hf : fs.outputFolder = true)
    (herr : (extractExistingMpkx o true fs).2 = some e) :
    (extractExistingMpkx o true fs).1.outputFolder = false ∧
    (extractExistingMpkx o true fs).1.gdb = false ∧
    (extractExistingMpkx o true fs).1.temp7z = false := by
  have hof := extractTryBody_outputFolder o true fs
  simp only [extractExistingMpkx, hm, hz, Bool.not_true, Bool.false_eq_true,
    if_false] at herr ⊢
  rcases hb : extractTryBody o true fs with ⟨fs1, err⟩
  rw [hb] at hof
  cases err with
  | none =>
    rw [hb] at herr
    simp at herr
  | some e1 =>
    have h1 : fs1.outputFolder = true := by
      simp only at hof
      exact hof.trans hf
    simp [h1]

theorem c5_cleanup_on_guarded_failure_witness :
    (extractExistingMpkx ⟨true, false, true, true⟩ true
      ⟨true, true, false, false⟩).2 = some ExtractErr.copyFailed ∧
    (extractExistingMpkx ⟨true, false, true, true⟩ true
      ⟨true, true, false, false⟩).1.outputFolder = false ∧
    (extractExistingMpkx ⟨true, false, true, true⟩ true
      ⟨true, true, false, false⟩).1.gdb = false ∧
    (extractExistingMpkx ⟨true, false, true, true⟩ true
      ⟨true, true, false, false⟩).1.temp7z = false :=
  ⟨by decide,
    c5_cleanup_on_guarded_failure ⟨true, false, true, true⟩
      ⟨true, true, false, false⟩ ExtractErr.copyFailed (by decide) (by decide)
      (by decide) (by decide)⟩

/-! ## Extent metadata (add_extent_metadata, lines 204-228)

The function reads the geodatabase metadata record; when it is writable it
composes a bounds description text from the four extent values, appends it to
the existing description after a blank line when one is present, and saves.
The bound values are modelled as the text they are formatted to; the
description is an Option to reflect that the engine may report no
description, which the source folds into the empty string. -/

/-- The four extent bounds, each as the text it prints as. -/
structure ExtentText where
  XMin : String
  YMin : String
  XMax : String
  YMax : String
deriving DecidableEq

/-- The geodatabase-level metadata record as add_extent_metadata uses it. -/
structure GdbMetadata where
  isReadOnly : Bool
  description : Option String
deriving DecidableEq

/-- The existing description text: the source coalesces a missing or empty
description into the empty string. -/
def currentDesc (m : GdbMetadata) : String :=
  match m.description with
  | none => ""
  | some d => d

/-- The bounds text composed at lines 216-220 of the source. -/
def extentDesc (e : ExtentText) : String :=
  "Data has been clipped to the following extent:\n" ++
    "XMin: " ++ e.XMin ++ "\n" ++
    "YMin: " ++ e.YMin ++ "\n" ++
    "XMax: " ++ e.XMax ++ "\n" ++
    "YMax: " ++ e.YMax

/-- add_extent_metadata on a writable record replaces the description with
the bounds text, prefixed by the previous text and a blank line when that
text is non-empty; a read-only record is left untouched. -/
def addExtentMetadata (m : GdbMetadata) (e : ExtentText) : GdbMetadata :=
  if m.isReadOnly then m
  else
    let newDesc : String :=
      if currentDesc m = "" then extentDesc e
      else currentDesc m ++ "\n\n" ++ extentDesc e
    { m with description := some newDesc }

/-- The text sub occurs contiguously inside s. -/
def containsText (s sub : String) : Prop := sub.data <:+: s.data

theorem containsText_refl (s : String) : containsText s s :=
  ⟨[], [], by simp⟩

theorem containsText_appendLeft (l : String) {s sub : String}
    (h : containsText s sub) : containsText (l ++ s) sub := by
  obtain ⟨p, q, hpq⟩ := h
  exact ⟨l.data ++ p, q, by rw [String.data_append, ← hpq]; simp⟩

theorem containsText_appendRight (r : String) {s sub : String}
    (h : containsText s sub) : containsText (s ++ r) sub := by
  obtain ⟨p, q, hpq⟩ := h
  exact ⟨p, q ++ r.data, by rw [String.data_append, ← hpq]; simp⟩

theorem extentDesc_contains_XMin (e : ExtentText) :
    containsText (extentDesc e) e.XMin := by
  unfold extentDesc
  iterate 9 apply containsText_appendRight
  apply containsText_appendLeft
  exact containsText_refl _

theorem extentDesc_contains_YMin (e : ExtentText) :
    containsText (extentDesc e) e.YMin := by
  unfold extentDesc
  iterate 6 apply containsText_appendRight
  apply containsText_appendLeft
  exact containsText_refl _

theorem extentDesc_contains_XMax (e : ExtentText) :
    containsText (extentDesc e) e.XMax := by
  unfold extentDesc
  iterate 3 apply containsText_appendRight
  apply containsText_appendLeft
  exact containsText_refl _

theorem extentDesc_contains_YMax (e : ExtentText) :
    containsText (extentDesc e) e.YMax := by
  unfold extentDesc
  apply containsText_appendLeft
  exact containsText_refl _

/-- C6: on a writable metadata record the new description contains the text
of all four bounds; when a non-empty description existed before, the new
description is exactly the old text, a blank line, and the bounds text, so
the old text is preserved unchanged in front of the separator. -/
theorem c6_extent_metadata_propagation (m : GdbMetadata) (e : ExtentText)
    (hw : m.isReadOnly = false) :
    (containsText (currentDesc (addExtentMetadata m e)) e.XMin ∧
      containsText (currentDesc (addExtentMetadata m e)) e.YMin ∧
      containsText (currentDesc (addExtentMetadata m e)) e.XMax ∧
      containsText (currentDesc (addExtentMetadata m e)) e.YMax) ∧
    (∀ d : String, m.description = some d → d ≠ "" →
      (addExtentMetadata m e).description =
        some (d ++ "\n\n" ++ extentDesc e)) := by
  have hdesc : currentDesc (addExtentMetadata m e) =
      if currentDesc m = "" then extentDesc e
      else currentDesc m ++ "\n\n" ++ extentDesc e := by
    simp [addExtentMetadata, hw, currentDesc]
  constructor
  · rw [hdesc]
    by_cases hc : currentDesc m = ""
    · rw [if_pos hc]
      exact ⟨extentDesc_contains_XMin e, extentDesc_contains_YMin e,
        extentDesc_contains_XMax e, extentDesc_contains_YMax e⟩
    · rw [if_neg hc]
      exact ⟨containsText_appendLeft _ (extentDesc_contains_XMin e),
        containsText_appendLeft _ (extentDesc_contains_YMin e),
        containsText_appendLeft _ (extentDesc_contains_XMax e),
        containsText_appendLeft _ (extentDesc_contains_YMax e)⟩
  · intro d hd hne
    have hc : currentDesc m = d := by simp [currentDesc, hd]
    simp [addExtentMetadata, hw, hc, hne]

theorem c6_extent_metadata_propagation_witness :
    containsText (currentDesc (addExtentMetadata ⟨false, some "old text"⟩
      ⟨"0.0", "0.0", "10.0", "10.0"⟩)) "10.0" ∧
    (addExtentMetadata ⟨false, some "old text"⟩
        ⟨"0.0", "0.0", "10.0", "10.0"⟩).description =
      some ("old text" ++ "\n\n" ++
        extentDesc ⟨"0.0", "0.0", "10.0", "10.0"⟩) :=
  ⟨(c6_extent_metadata_propagation ⟨false, some "old text"⟩
      ⟨"0.0", "0.0", "10.0", "10.0"⟩ (by decide)).1.2.2.1,
    (c6_extent_metadata_propagation ⟨false, some "old text"⟩
      ⟨"0.0", "0.0", "10.0", "10.0"⟩ (by decide)).2 "old text" rfl
      (by decide)⟩

/-! ## Layer classifier (identify_z_layers, lines 287-314)

The source iterates over the layers of the map in order, skips group layers,
probes each remaining layer through arcpy.Describe inside a try block, and
appends the layer to the Z list when the descriptor has a true hasZ
attribute and to the non-Z list otherwise; a probe that raises prints a
warning and the layer joins neither list.  The probe is an oracle: none
models a raising Describe, some b the combined hasattr-and-hasZ test. -/

/-- A map layer as identify_z_layers and get_layer_extent see it. -/
structure MapLayer where
  name : String
  isGroupLayer : Bool
deriving DecidableEq

def classifyWarning (l : MapLayer) : String :=
  "Warning: identify_z_layers() could not process " ++ l.name

def identifyZLayersImpl (probe : MapLayer → Option Bool) :
    List MapLayer → List MapLayer × List MapLayer × List String
  | [] => ([], [], [])
  | l :: ls =>
    let rest := identifyZLayersImpl probe ls
    if l.isGroupLayer then rest
    else
      match probe l with
      | some true => (rest.1, l :: rest.2.1, rest.2.2)
      | some false => (l :: rest.1, rest.2.1, rest.2.2)
      | none => (rest.1, rest.2.1, classifyWarning l :: rest.2.2)

/-- C7: the classifier returns exactly the map-ordered sublist of non-group
layers whose probe reports no Z as the first list, the map-ordered sublist of
non-group layers whose probe reports Z as the second list, and one warning,
in map order, for each non-group layer whose probe raises; a layer of the
latter kind, and every group layer, is in neither list, and every probed
non-group layer is in exactly one list. -/
theorem c7_classifier_partition (probe : MapLayer → Option Bool)
    (ls : List MapLayer) :
    (identifyZLayersImpl probe ls).1 =
      ls.filter (fun l => !l.isGroupLayer && probe l == some false) ∧
    (identifyZLayersImpl probe ls).2.1 =
      ls.filter (fun l => !l.isGroupLayer && probe l == some true) ∧
    (identifyZLayersImpl probe ls).2.2 =
      (ls.filter (fun l => !l.isGroupLayer && probe l == none)).map
        classifyWarning := by
  induction ls with
  | nil => exact ⟨rfl, rfl, rfl⟩
  | cons a ls ih =>
    obtain ⟨ih1, ih2, ih3⟩ := ih
    by_cases hg : a.isGroupLayer = true
    · simpa [identifyZLayersImpl, hg] using ⟨ih1, ih2, ih3⟩
    · cases hp : probe a with
      | none =>
        simpa [identifyZLayersImpl, hg, hp] using ⟨ih1, ih2, ih3⟩
      | some b =>
        cases b with
        | true =>
          simpa [identifyZLayersImpl, hg, hp] using ⟨ih1, ih2, ih3⟩
        | false =>
          simpa [identifyZLayersImpl, hg, hp] using ⟨ih1, ih2, ih3⟩

theorem c7_classifier_partition_witness :
    (identifyZLayersImpl
        (fun l => if l.name = "bad" then none else some (l.name = "tall"))
        [⟨"roads", false⟩, ⟨"tall", false⟩, ⟨"bad", false⟩, ⟨"grp", true⟩]).1 =
      [⟨"roads", false⟩] ∧
    (identifyZLayersImpl
        (fun l => if l.name = "bad" then none else some (l.name = "tall"))
        [⟨"roads", false⟩, ⟨"tall", false⟩, ⟨"bad", false⟩, ⟨"grp", true⟩]).2.1 =
      [⟨"tall", false⟩] ∧
    (identifyZLayersImpl
        (fun l => if l.name = "bad" then none else some (l.name = "tall"))
        [⟨"roads", false⟩, ⟨"tall", false⟩, ⟨"bad", false⟩, ⟨"grp", true⟩]).2.2 =
      [classifyWarning ⟨"bad", false⟩] := by
  have h := c7_classifier_partition
    (fun l => if l.name = "bad" then none else some (l.name = "tall"))
    [⟨"roads", false⟩, ⟨"tall", false⟩, ⟨"bad", false⟩, ⟨"grp", true⟩]
  refine ⟨h.1.trans (by decide), h.2.1.trans (by decide),
    h.2.2.trans (by decide)⟩

/-! ## Extent resolver (get_layer_extent, lines 29-51)

The source scans the map layers in order for the first layer whose name
equals the target and which is not a group layer; for that layer it requests
a descriptor and returns its extent when the descriptor has one, raising the
no-spatial-extent ValueError otherwise; when the scan finds no such layer it
raises the not-found ValueError.  The descriptor extent is modelled as an
Option on the layer. -/

/-- The descriptor facts get_layer_extent consults for a layer: present
extent bounds, or none when the descriptor lacks the extent attribute. -/
structure DescribedLayer where
  name : String
  isGroupLayer : Bool
  extent : Option (Int × Int × Int × Int)
deriving DecidableEq

inductive ExtentResolveErr where
  | layerNotFound
  | noSpatialExtent
deriving DecidableEq

def matchesTarget (layerName : String) (l : DescribedLayer) : Bool :=
  l.name == layerName && !l.isGroupLayer

def getLayerExtent (layers : List DescribedLayer) (layerName : String) :
    Except ExtentResolveErr (Int × Int × Int × Int) :=
  match layers with
  | [] => .error .layerNotFound
  | l :: ls =>
    if matchesTarget layerName l then
      match l.extent with
      | some e => .ok e
      | none => .error .noSpatialExtent
    else getLayerExtent ls layerName

theorem getLayerExtent_notFound (layerName : String) :
    ∀ layers : List DescribedLayer,
      (getLayerExtent layers layerName = .error .layerNotFound ↔
        ∀ l ∈ layers, matchesTarget layerName l = false)
  | [] => by simp [getLayerExtent]
  | l :: ls => by
    by_cases hm : matchesTarget layerName l = true
    · cases he : l.extent with
      | some e =>
        simp [getLayerExtent, hm, he]
      | none =>
        simp [getLayerExtent, hm, he]
    · have hm' : matchesTarget layerName l = false := by
        simpa using hm
      simp only [getLayerExtent, hm', Bool.false_eq_true, if_false,
        List.mem_cons]
      rw [getLayerExtent_notFound layerName ls]
      constructor
      · intro h l2 hl2
        rcases hl2 with h2 | h2
        · rw [h2]; exact hm'
        · exact h l2 h2
      · intro h l2 hl2
        exact h l2 (Or.inr hl2)

theorem getLayerExtent_found (layerName : String) :
    ∀ (layers : List DescribedLayer) (l : DescribedLayer),
      layers.find? (matchesTarget layerName) = some l →
      (getLayerExtent layers layerName =
          (match l.extent with
            | some e => .ok e
            | none => .error .noSpatialExtent))
  | a :: ls, l, hfind => by
    by_cases hm : matchesTarget layerName a = true
    · rw [List.find?_cons_of_pos _ hm] at hfind
      obtain rfl : a = l := by injection hfind
      simp only [getLayerExtent, hm, if_true]
    · have hm' : matchesTarget layerName a = false := by simpa using hm
      rw [List.find?_cons_of_neg _ (by simp [hm'])] at hfind
      simp only [getLayerExtent, hm', Bool.false_eq_true, if_false]
      exact getLayerExtent_found layerName ls l hfind

/-- C8: the resolver returns the layer-not-found error exactly when no
non-group layer of the map carries the target name; when such a layer exists
the scan settles on the first one, and the resolver returns the no-spatial-
extent error exactly when that layer has no descriptor extent, returning the
descriptor extent otherwise.  The resolver is a pure function of the layer
list, so it has no side effects on the map. -/
theorem c8_extent_resolver (layers : List DescribedLayer) (layerName : String) :
    (getLayerExtent layers layerName = .error .layerNotFound ↔
      ∀ l ∈ layers, matchesTarget layerName l = false) ∧
    (∀ l : DescribedLayer, layers.find? (matchesTarget layerName) = some l →
      ((getLayerExtent layers layerName = .error .noSpatialExtent ↔
          l.extent = none) ∧
        ∀ e, l.extent = some e → getLayerExtent layers layerName = .ok e)) := by
  refine ⟨getLayerExtent_notFound layerName layers, ?_⟩
  intro l hfind
  have h := getLayerExtent_found layerName layers l hfind
  constructor
  · rw [h]
    cases he : l.extent with
    | some e => simp
    | none => simp
  · intro e he
    rw [h, he]

theorem c8_extent_resolver_witness :
    (getLayerExtent [⟨"b", false, some (0, 0, 10, 10)⟩] "a" =
      .error ExtentResolveErr.layerNotFound) ∧
    (getLayerExtent [⟨"b", false, some (0, 0, 10, 10)⟩] "b" =
      .ok (0, 0, 10, 10)) ∧
    (getLayerExtent [⟨"c", false, none⟩] "c" =
      .error ExtentResolveErr.noSpatialExtent) :=
  ⟨(c8_extent_resolver [⟨"b", false, some (0, 0, 10, 10)⟩] "a").1.mpr
      (by decide),
    ((c8_extent_resolver [⟨"b", false, some (0, 0, 10, 10)⟩] "b").2
      ⟨"b", false, some (0, 0, 10, 10)⟩ (by decide)).2 (0, 0, 10, 10) rfl,
    ((c8_extent_resolver [⟨"c", false, none⟩] "c").2
      ⟨"c", false, none⟩ (by decide)).1.mpr rfl⟩

/-! ## Pipeline stage order (main block, lines 406-458)

The main block resolves the extent, classifies the layers, builds the
package, extracts it with extract_existing_mpkx, and then runs
process_existing_gdb on the extracted geodatabase.  The Z-enabled layers
are processed inside extract_existing_mpkx, between the relocation of the
store and the temporary-file cleanup, and only when the supplied list is
non-empty; process_existing_gdb performs the rename pass and then the
metadata pass.  Each call sequence is recorded as the list of pipeline
stages it performs, composed exactly as the calls are nested. -/

inductive Stage where
  | resolveExtent
  | classify
  | package
  | extract
  | reconcileZ
  | normalize
  | propagate
deriving DecidableEq

/-- Stages performed by extract_existing_mpkx: the extraction itself,
followed by the Z-layer loop when the z_layers argument is non-empty. -/
def extractStages (zLayers : List String) : List Stage :=
  [Stage.extract] ++ (if zLayers.isEmpty then [] else [Stage.reconcileZ])

/-- Stages performed by process_existing_gdb: the rename pass over the
store, then process_metadata. -/
def processGdbStages : List Stage :=
  [Stage.normalize, Stage.propagate]

/-- Stages performed by the main block, in program order. -/
def mainStages (zLayers : List String) : List Stage :=
  [Stage.resolveExtent, Stage.classify, Stage.package] ++
    extractStages zLayers ++ processGdbStages

/-- C9 counterexample: in a run with a Z-enabled layer the Z-layer loop runs
inside extract_existing_mpkx, before process_existing_gdb performs the
rename pass, so the normalizer does not precede the reconciler. -/
theorem c9_counterexample :
    ¬ (mainStages ["tall"]).indexOf Stage.normalize <
      (mainStages ["tall"]).indexOf Stage.reconcileZ := by decide

/-- C9 (amended): in every run the Z-layer loop, when it runs at all, runs
after extraction and before the rename pass, and the rename pass runs before
the metadata pass: the actual order is Archive Extractor, then Z-Layer
Reconciler, then Identifier Normalizer, then Metadata Propagator. -/
theorem c9_stage_order (zLayers : List String) :
    (mainStages zLayers).indexOf Stage.extract <
      (mainStages zLayers).indexOf Stage.normalize ∧
    (mainStages zLayers).indexOf Stage.normalize <
      (mainStages zLayers).indexOf Stage.propagate ∧
    (zLayers.isEmpty = false →
      (mainStages zLayers).indexOf Stage.extract <
        (mainStages zLayers).indexOf Stage.reconcileZ ∧
      (mainStages zLayers).indexOf Stage.reconcileZ <
        (mainStages zLayers).indexOf Stage.normalize) := by
  cases zLayers with
  | nil =>
    exact ⟨by decide, by decide, fun h => by simp at h⟩
  | cons a l =>
    have hm : mainStages (a :: l) =
        [Stage.resolveExtent, Stage.classify, Stage.package, Stage.extract,
          Stage.reconcileZ, Stage.normalize, Stage.propagate] := rfl
    rw [hm]
    exact ⟨by decide, by decide, fun h => ⟨by decide, by decide⟩⟩

theorem c9_stage_order_witness :
    (["tall"] : List String).isEmpty = false ∧
    (mainStages ["tall"]).indexOf Stage.reconcileZ <
      (mainStages ["tall"]).indexOf Stage.normalize :=
  ⟨by decide, ((c9_stage_order ["tall"]).2.2 (by decide)).2⟩

end ArchiveMap